import Mathlib

/-!
Verification of the tlox static resolver and runtime environment.

This file shallowly embeds the code of `src/resolver.ts` (class `Resolver`)
and of the `Environment` class (chain of scope frames) in Lean 4, and proves
properties of the resolution pass and of environment lookup/assignment.

Modelling conventions:
- A TypeScript `Map<string, T>` / plain object used as a dictionary becomes an
  insertion-ordered association list `List (String × T)`; `set` overwrites the
  existing entry in place or appends a fresh one, matching `Map.set`.
- The resolver mutates ambient state (`scopes`, `currentFunction`,
  `currentClass`, the diagnostic sink `Lox.error`, and the interpreter's
  binding table `interpreter.resolve`).  Each visitor becomes a function
  `ResolverState → ResolverState × Option ResolverException`: the returned
  state carries every mutation performed before a possible thrown exception,
  because in the source the sink and the binding table outlive a `throw`.
- `Environment.get` / `Environment.assign` throw `RuntimeError`; they become
  `Except RuntimeError _` valued functions.
-/

namespace TLox

/-- A runtime value (TypeScript `any`).  The resolver and the environment
never inspect values except for the `=== undefined` comparison in
`Resolver.resolveLocal`, so a small closed universe suffices; `undefined`
is JavaScript's `undefined`, `nullV` its `null`. -/
inductive Value where
  | undefined
  | nullV
  | num (n : Int)
  | str (s : String)
  | boolV (b : Bool)
deriving DecidableEq, Repr

/-- A token, as used by the resolver and the environment: only the lexeme text
and the source line are ever consulted (the lexeme for lookups, the whole
token as the label attached to errors). -/
structure Token where
  lexeme : String
  line : Nat
deriving DecidableEq, Repr

/-- `RuntimeError` from `runtime-error.ts`: the offending token and a
message. -/
structure RuntimeError where
  token : Token
  message : String
deriving DecidableEq, Repr

/-- Lookup in an insertion-ordered association list (TS `Map.get` /
`key in obj` followed by `obj[key]`). -/
def lookupK {α : Type} : List (String × α) → String → Option α
  | [], _ => Option.none
  | (k, v) :: rest, lex => if k = lex then Option.some v else lookupK rest lex

/-- Key-presence test (TS `Map.has` / `key in obj`). -/
def hasKey {α : Type} (f : List (String × α)) (lex : String) : Bool :=
  (lookupK f lex).isSome

/-- Insert-or-overwrite (TS `Map.set` / `obj[key] = v`): overwrites the
existing entry in place, otherwise appends at the end. -/
def setKey {α : Type} : List (String × α) → String → α → List (String × α)
  | [], lex, v => [(lex, v)]
  | (k, w) :: rest, lex, v =>
      if k = lex then (k, v) :: rest else (k, w) :: setKey rest lex v

/-- The `Environment` class: a frame of bindings plus an optional enclosing
environment, forming a chain whose last frame is the global one. -/
inductive Environment where
  | mk (values : List (String × Value)) (enclosing : Option Environment)

/-- The frames of an environment chain, innermost first. -/
def Environment.frames : Environment → List (List (String × Value))
  | .mk vs Option.none => [vs]
  | .mk vs (Option.some e) => vs :: e.frames

/-- `Environment.get(name)`: return the binding of the receiver frame when
present, otherwise recurse into the enclosing frame; throw `RuntimeError`
with message `Undefined variable '<lexeme>'` when the chain is exhausted. -/
def Environment.get : Environment → Token → Except RuntimeError Value
  | .mk vs enc, name =>
    match lookupK vs name.lexeme with
    | Option.some v => Except.ok v
    | Option.none =>
      match enc with
      | Option.some e => e.get name
      | Option.none =>
          Except.error ⟨name, "Undefined variable \x27" ++ name.lexeme ++ "\x27"⟩

/-- `Environment.assign(name, value)`: overwrite the binding in the receiver
frame when present, otherwise recurse into the enclosing frame; throw the
undefined-variable `RuntimeError` when the chain is exhausted.  The returned
environment is the mutated chain. -/
def Environment.assign : Environment → Token → Value → Except RuntimeError Environment
  | .mk vs enc, name, v =>
    if hasKey vs name.lexeme then
      Except.ok (.mk (setKey vs name.lexeme v) enc)
    else
      match enc with
      | Option.some e =>
        match e.assign name v with
        | Except.ok e2 => Except.ok (.mk vs (Option.some e2))
        | Except.error err => Except.error err
      | Option.none =>
          Except.error ⟨name, "Undefined variable \x27" ++ name.lexeme ++ "\x27"⟩

/-- First-match lookup over a list of frames, innermost first: the value bound
in the nearest frame containing the key.  This is the specification the
recursive walk of `Environment.get` is compared against. -/
def nearestVal : List (List (String × Value)) → String → Option Value
  | [], _ => Option.none
  | f :: rest, lex =>
    match lookupK f lex with
    | Option.some v => Option.some v
    | Option.none => nearestVal rest lex

/-- Overwrite the key in the nearest frame (innermost first) that contains it,
leaving every other frame unchanged.  This is the specification the recursive
walk of `Environment.assign` is compared against. -/
def overwriteNearest : List (List (String × Value)) → String → Value → List (List (String × Value))
  | [], _, _ => []
  | f :: rest, lex, v =>
    if hasKey f lex then setKey f lex v :: rest
    else f :: overwriteNearest rest lex v

/-!
## The abstract syntax tree

`Expr` and `Stmt` from `expressions.ts` / `statements.ts`, restricted to the
fields the resolver consults.  `Stmt.Function` is its own type because
`Stmt.Class` holds a list of them.  The binding-distance table is keyed by
node identity in the source; here every node that can be a key (`Variable`,
`Assign`, `This` — the nodes passed to `resolveLocal`) carries a numeric
identity `id`.  Constructor names carry an `E`/`S` suffix where the source
name is a Lean keyword or would shadow one. -/

mutual

inductive Expr where
  | literal (v : Value)
  | grouping (e : Expr)
  | unary (op : Token) (right : Expr)
  | binary (left : Expr) (op : Token) (right : Expr)
  | logical (left : Expr) (op : Token) (right : Expr)
  | variableE (id : Nat) (name : Token)
  | assignE (id : Nat) (name : Token) (value : Expr)
  | call (callee : Expr) (args : List Expr)
  | getE (obj : Expr) (name : Token)
  | setE (obj : Expr) (name : Token) (value : Expr)
  | thisE (id : Nat) (keyword : Token)

inductive Stmt where
  | expression (e : Expr)
  | print (e : Option Expr)
  | letS (name : Token) (init : Option Expr)
  | block (stmts : List Stmt)
  | ifS (cond : Expr) (thenB : Stmt) (elseB : Option Stmt)
  | whileS (cond : Expr) (body : Stmt)
  | functionS (f : FunctionStmt)
  | returnS (keyword : Token) (value : Option Expr)
  | classS (name : Token) (methods : List FunctionStmt)

inductive FunctionStmt where
  | mk (name : Token) (params : List Token) (body : List Stmt)

end

def FunctionStmt.name : FunctionStmt → Token
  | .mk n _ _ => n

def FunctionStmt.params : FunctionStmt → List Token
  | .mk _ ps _ => ps

def FunctionStmt.body : FunctionStmt → List Stmt
  | .mk _ _ b => b

/-- `type FunctionEnvironment = 'none' | 'function' | 'method'` (also the
`FunctionType` values passed to `resolveFunction`). -/
inductive FunctionEnvironment where
  | noneF
  | functionF
  | methodF
deriving DecidableEq, Repr

/-- `type ClassEnvironment = 'none' | 'class'`. -/
inductive ClassEnvironment where
  | noneC
  | classC
deriving DecidableEq, Repr

/-!
## Resolver state

The mutable fields of the `Resolver` object together with the two external
sinks it writes to: `errors` is the sequence of `Lox.error(token, message)`
calls, `bindings` the sequence of `interpreter.resolve(node, distance)` calls
(nodes represented by their identity).  `globals` is the interpreter's global
`Environment`, read by `resolveLocal`. -/

structure ResolverState where
  scopes : List (List (String × Bool))
  currentFunction : FunctionEnvironment
  currentClass : ClassEnvironment
  bindings : List (Nat × Nat)
  errors : List (Token × String)
  globals : Environment

/-- An exception escaping a resolver method: either the `RuntimeError` thrown
by `Environment.get` inside `resolveLocal`, or the plain `Error` thrown by
`declare`/`define` on an empty scope stack. -/
inductive ResolverException where
  | runtime (e : RuntimeError)
  | internal (msg : String)

/-- Result of one resolver step: the state after all mutations performed, and
the exception that escaped, if any. -/
abbrev StepR := ResolverState × Option ResolverException

/-- `Lox.error(token, message)`: append a diagnostic to the sink. -/
def addError (st : ResolverState) (tok : Token) (msg : String) : ResolverState :=
  { st with errors := st.errors ++ [(tok, msg)] }

/-- The messages used by the resolver and the environment. -/
def dupDeclMsg : String := "Variable with this name already declare in this scope"

def readInitMsg : String := "Cannot read local variable in its own initializer"

def undefinedVarMsg : String := "Undefined variable"

def returnTopMsg : String := "Cannot return from top-level code"

def thisOutsideMsg : String := "Cannot use \x27this\x27 outside of a class"

def emptyScopesMsg : String := "There\x27s nothing in scopes. That shouln\x27t happen."

/-- `beginScope()`: push a fresh scope frame (innermost = head). -/
def beginScope (st : ResolverState) : ResolverState :=
  { st with scopes := [] :: st.scopes }

/-- `endScope()`: pop the innermost scope frame. -/
def endScope (st : ResolverState) : ResolverState :=
  { st with scopes := st.scopes.tail }

/-- `innerScope()`: the innermost scope frame. -/
def innerScope (st : ResolverState) : List (String × Bool) :=
  st.scopes.headD []

/-- `declare(name)`: throw when the scope stack is empty; emit a static error
when the innermost frame already has the name; mark the name unready
(readiness `false`) in the innermost frame. -/
def declare (name : Token) (st : ResolverState) : StepR :=
  match st.scopes with
  | [] => (st, Option.some (.internal emptyScopesMsg))
  | scope :: rest =>
    let st1 := if hasKey scope name.lexeme then addError st name dupDeclMsg else st
    ({ st1 with scopes := setKey scope name.lexeme false :: rest }, Option.none)

/-- `define(name)`: throw when the scope stack is empty; mark the name ready
(readiness `true`) in the innermost frame. -/
def define (name : Token) (st : ResolverState) : StepR :=
  match st.scopes with
  | [] => (st, Option.some (.internal emptyScopesMsg))
  | scope :: rest =>
    ({ st with scopes := setKey scope name.lexeme true :: rest }, Option.none)

/-- The index (= number of frames walked outward from the innermost frame) of
the nearest scope frame containing the name: the loop
`for (i = scopes.length - 1; i >= 0; i--)` of `resolveLocal`, with distance
`scopes.length - 1 - i`. -/
def findFrame : List (List (String × Bool)) → String → Option Nat
  | [], _ => Option.none
  | f :: rest, lex =>
    if hasKey f lex then Option.some 0
    else (findFrame rest lex).map (· + 1)

/-- `resolveLocal(expr, name)`: walk the scope stack innermost-outward; on the
first frame containing the name, register `(expr, distance)` with the
interpreter and return.  Otherwise consult the interpreter's global
environment: `Environment.get` throws the undefined-variable `RuntimeError`
when the name is absent from the chain; a present binding whose value is
JavaScript `undefined` triggers the static `Undefined variable` error. -/
def resolveLocal (exprId : Nat) (name : Token) (st : ResolverState) : StepR :=
  match findFrame st.scopes name.lexeme with
  | Option.some d => ({ st with bindings := st.bindings ++ [(exprId, d)] }, Option.none)
  | Option.none =>
    match st.globals.get name with
    | Except.error e => (st, Option.some (.runtime e))
    | Except.ok v =>
      if v = Value.undefined then (addError st name undefinedVarMsg, Option.none)
      else (st, Option.none)

/-- `declare(param); define(param);` for each parameter, in order (the loop of
`resolveFunction`). -/
def declareParams : List Token → ResolverState → StepR
  | [], st => (st, Option.none)
  | p :: rest, st =>
    match declare p st with
    | (st1, Option.some ex) => (st1, Option.some ex)
    | (st1, Option.none) =>
      match define p st1 with
      | (st2, Option.some ex) => (st2, Option.some ex)
      | (st2, Option.none) => declareParams rest st2

/-!
## The resolver walk

One function per visitor group of `resolver.ts`.  Sequencing stops at the
first exception, carrying along the state mutated so far (ambient mutation
survives a `throw` in the source). -/

mutual

def resolveExpr : Expr → ResolverState → StepR
  | .literal _, st => (st, Option.none)
  | .grouping e, st => resolveExpr e st
  | .unary _ r, st => resolveExpr r st
  | .binary l _ r, st =>
    match resolveExpr l st with
    | (st1, Option.some ex) => (st1, Option.some ex)
    | (st1, Option.none) => resolveExpr r st1
  | .logical l _ r, st =>
    match resolveExpr l st with
    | (st1, Option.some ex) => (st1, Option.some ex)
    | (st1, Option.none) => resolveExpr r st1
  | .variableE i n, st =>
    -- visitVariableExpr: the same-scope readiness check, then resolveLocal
    let st1 :=
      if st.scopes ≠ [] ∧ lookupK (innerScope st) n.lexeme = Option.some false
      then addError st n readInitMsg else st
    resolveLocal i n st1
  | .assignE i n v, st =>
    match resolveExpr v st with
    | (st1, Option.some ex) => (st1, Option.some ex)
    | (st1, Option.none) => resolveLocal i n st1
  | .call c args, st =>
    match resolveExpr c st with
    | (st1, Option.some ex) => (st1, Option.some ex)
    | (st1, Option.none) => resolveExprs args st1
  | .getE o _, st => resolveExpr o st
  | .setE o _ v, st =>
    -- visitSetExpr resolves the value first, then the object
    match resolveExpr v st with
    | (st1, Option.some ex) => (st1, Option.some ex)
    | (st1, Option.none) => resolveExpr o st1
  | .thisE i kw, st =>
    if st.currentClass = .noneC then (addError st kw thisOutsideMsg, Option.none)
    else resolveLocal i kw st

def resolveExprs : List Expr → ResolverState → StepR
  | [], st => (st, Option.none)
  | e :: rest, st =>
    match resolveExpr e st with
    | (st1, Option.some ex) => (st1, Option.some ex)
    | (st1, Option.none) => resolveExprs rest st1

def resolveStmt : Stmt → ResolverState → StepR
  | .expression e, st => resolveExpr e st
  | .print Option.none, st => (st, Option.none)
  | .print (Option.some e), st => resolveExpr e st
  | .letS n Option.none, st =>
    match declare n st with
    | (st1, Option.some ex) => (st1, Option.some ex)
    | (st1, Option.none) => define n st1
  | .letS n (Option.some e), st =>
    match declare n st with
    | (st1, Option.some ex) => (st1, Option.some ex)
    | (st1, Option.none) =>
      match resolveExpr e st1 with
      | (st2, Option.some ex) => (st2, Option.some ex)
      | (st2, Option.none) => define n st2
  | .block ss, st =>
    match resolveStmts ss (beginScope st) with
    | (st1, Option.some ex) => (st1, Option.some ex)
    | (st1, Option.none) => (endScope st1, Option.none)
  | .ifS c t Option.none, st =>
    match resolveExpr c st with
    | (st1, Option.some ex) => (st1, Option.some ex)
    | (st1, Option.none) => resolveStmt t st1
  | .ifS c t (Option.some el), st =>
    match resolveExpr c st with
    | (st1, Option.some ex) => (st1, Option.some ex)
    | (st1, Option.none) =>
      match resolveStmt t st1 with
      | (st2, Option.some ex) => (st2, Option.some ex)
      | (st2, Option.none) => resolveStmt el st2
  | .whileS c b, st =>
    match resolveExpr c st with
    | (st1, Option.some ex) => (st1, Option.some ex)
    | (st1, Option.none) => resolveStmt b st1
  | .functionS f, st =>
    match declare f.name st with
    | (st1, Option.some ex) => (st1, Option.some ex)
    | (st1, Option.none) =>
      match define f.name st1 with
      | (st2, Option.some ex) => (st2, Option.some ex)
      | (st2, Option.none) => resolveFunction f .functionF st2
  | .returnS kw Option.none, st =>
    ((if st.currentFunction = .noneF then addError st kw returnTopMsg else st),
     Option.none)
  | .returnS kw (Option.some e), st =>
    resolveExpr e
      (if st.currentFunction = .noneF then addError st kw returnTopMsg else st)
  | .classS n methods, st =>
    -- visitClassStmt: save class context, declare+define the name, open a
    -- scope binding `this` ready, resolve the methods, close, restore
    let enclosingClass := st.currentClass
    match declare n { st with currentClass := .classC } with
    | (st1, Option.some ex) => (st1, Option.some ex)
    | (st1, Option.none) =>
      match define n st1 with
      | (st2, Option.some ex) => (st2, Option.some ex)
      | (st2, Option.none) =>
        -- beginScope(); innerScope().set('this', true)
        match resolveMethods methods { st2 with scopes := [("this", true)] :: st2.scopes } with
        | (st3, Option.some ex) => (st3, Option.some ex)
        | (st3, Option.none) =>
          ({ endScope st3 with currentClass := enclosingClass }, Option.none)

def resolveStmts : List Stmt → ResolverState → StepR
  | [], st => (st, Option.none)
  | s :: rest, st =>
    match resolveStmt s st with
    | (st1, Option.some ex) => (st1, Option.some ex)
    | (st1, Option.none) => resolveStmts rest st1

def resolveMethods : List FunctionStmt → ResolverState → StepR
  | [], st => (st, Option.none)
  | m :: rest, st =>
    match resolveFunction m .methodF st with
    | (st1, Option.some ex) => (st1, Option.some ex)
    | (st1, Option.none) => resolveMethods rest st1

def resolveFunction : FunctionStmt → FunctionEnvironment → ResolverState → StepR
  | .mk _ ps body, ty, st =>
    -- save the function context, open the function scope, bind parameters,
    -- resolve the body, close the scope, restore the context
    let enclosing := st.currentFunction
    match declareParams ps (beginScope { st with currentFunction := ty }) with
    | (st1, Option.some ex) => (st1, Option.some ex)
    | (st1, Option.none) =>
      match resolveStmts body st1 with
      | (st2, Option.some ex) => (st2, Option.some ex)
      | (st2, Option.none) =>
        ({ endScope st2 with currentFunction := enclosing }, Option.none)

end

/-- The initial resolver state: one (global) scope frame pushed by the
constructor, both context markers `none`, empty sinks, and the interpreter's
global environment. -/
def initState (g : Environment) : ResolverState :=
  { scopes := [[]]
    currentFunction := .noneF
    currentClass := .noneC
    bindings := []
    errors := []
    globals := g }

/-- `new Resolver(interpreter); resolver.resolve(statements)` on a whole
program. -/
def runResolver (g : Environment) (prog : List Stmt) : StepR :=
  resolveStmts prog (initState g)

/-- A name occurs somewhere in an environment chain. -/
def chainHas (env : Environment) (lex : String) : Bool :=
  env.frames.any (fun f => hasKey f lex)

/-- Two names with the same lexeme. -/
def hasDupName : List Token → Bool
  | [] => false
  | p :: rest => rest.any (fun q => q.lexeme == p.lexeme) || hasDupName rest

/-- The diagnostic sink only grows: `st'` holds every error of `st`, in
order, possibly followed by newly emitted ones. -/
def ErrExt (st st' : ResolverState) : Prop :=
  ∃ l, st'.errors = st.errors ++ l

/-! ## Concrete fixtures used by witnesses and counterexamples -/

/-- An empty global environment. -/
def E0 : Environment := .mk [] Option.none

def tokA : Token := ⟨"a", 1⟩

def tokX : Token := ⟨"x", 1⟩

/-- A two-frame chain: the inner frame binds `b`, the enclosing (global)
frame binds `a`. -/
def E2 : Environment :=
  .mk [("b", Value.num 2)] (Option.some (.mk [("a", Value.num 1)] Option.none))

/-- A resolver state whose scope stack binds `b` in the innermost frame and
`a` in the outer (global) frame. -/
def stDemo : ResolverState :=
  { scopes := [[("b", true)], [("a", true)]]
    currentFunction := .noneF
    currentClass := .noneC
    bindings := []
    errors := []
    globals := E0 }

/-- A state whose innermost frame already binds `a`. -/
def stInnerA : ResolverState := { stDemo with scopes := [[("a", true)], []] }

/-- A function declaration with no parameters and an empty body. -/
def fEmpty : FunctionStmt := .mk ⟨"f", 1⟩ [] []

/-- A function declaration whose parameter list repeats the name `a`. -/
def fDupParams : FunctionStmt := .mk ⟨"f", 1⟩ [⟨"a", 1⟩, ⟨"a", 2⟩] []

/-! ## Helper lemmas: association lists and frame search -/

theorem lookupK_setKey_self {α : Type} (f : List (String × α)) (lex : String) (v : α) :
    lookupK (setKey f lex v) lex = Option.some v := by
  induction f with
  | nil => simp [setKey, lookupK]
  | cons kv rest ih =>
    obtain ⟨k, w⟩ := kv
    by_cases h : k = lex <;> simp [setKey, lookupK, h, ih]

theorem hasKey_setKey {α : Type} (f : List (String × α)) (lex lex' : String) (v : α) :
    hasKey (setKey f lex v) lex' = (hasKey f lex' || lex = lex') := by
  induction f with
  | nil =>
    by_cases h : lex = lex' <;> simp [setKey, hasKey, lookupK, h]
  | cons kv rest ih =>
    obtain ⟨k, w⟩ := kv
    by_cases h : k = lex
    · subst h
      by_cases h' : k = lex' <;> simp [setKey, hasKey, lookupK, h']
    · by_cases h' : k = lex'
      · subst h'
        simp [setKey, hasKey, lookupK, h]
      · simp only [setKey, hasKey, lookupK, if_neg h, if_neg h']
        simpa [hasKey] using ih

theorem findFrame_eq_none (fs : List (List (String × Bool))) (lex : String) :
    findFrame fs lex = Option.none ↔ ∀ f ∈ fs, hasKey f lex = false := by
  induction fs with
  | nil => simp [findFrame]
  | cons f rest ih =>
    by_cases h : hasKey f lex
    · simp [findFrame, h]
    · simp only [findFrame, h, if_neg, Bool.false_eq_true, ite_false,
        Option.map_eq_none', List.mem_cons]
      constructor
      · intro hnone g hg
        rcases hg with hg | hg
        · subst hg; simpa using h
        · exact (ih.mp hnone) g hg
      · intro hall
        exact ih.mpr (fun g hg => hall g (Or.inr hg))

theorem findFrame_spec (fs : List (List (String × Bool))) (lex : String) (i : Nat)
    (h : findFrame fs lex = Option.some i) :
    (∃ f, fs.get? i = Option.some f ∧ hasKey f lex = true) ∧
    (∀ j, j < i → ∀ f, fs.get? j = Option.some f → hasKey f lex = false) := by
  induction fs generalizing i with
  | nil => simp [findFrame] at h
  | cons f rest ih =>
    by_cases hk : hasKey f lex
    · simp only [findFrame, hk, ite_true, Option.some.injEq] at h
      subst h
      exact ⟨⟨f, rfl, hk⟩, fun j hj => absurd hj (Nat.not_lt_zero j)⟩
    · simp only [findFrame, hk, Bool.false_eq_true, ite_false,
        Option.map_eq_some'] at h
      obtain ⟨i', hi', rfl⟩ := h
      obtain ⟨⟨g, hg, hgk⟩, hmin⟩ := ih i' hi'
      refine ⟨⟨g, by simpa using hg, hgk⟩, ?_⟩
      intro j hj fj hfj
      cases j with
      | zero =>
        simp only [List.get?_cons_zero, Option.some.injEq] at hfj
        subst hfj
        simpa using hk
      | succ j' =>
        simp only [List.get?_cons_succ] at hfj
        exact hmin j' (Nat.lt_of_succ_lt_succ hj) fj hfj

/-! ## Helper lemmas: the environment chain -/

theorem get_eq_nearestVal : ∀ (env : Environment) (name : Token),
    env.get name =
      (match nearestVal env.frames name.lexeme with
       | Option.some v => Except.ok v
       | Option.none =>
           Except.error ⟨name, "Undefined variable \x27" ++ name.lexeme ++ "\x27"⟩)
  | .mk vs Option.none, name => by
    cases h : lookupK vs name.lexeme <;>
      simp [Environment.get, Environment.frames, nearestVal, h]
  | .mk vs (Option.some e), name => by
    have ih := get_eq_nearestVal e name
    cases h : lookupK vs name.lexeme <;>
      simp [Environment.get, Environment.frames, nearestVal, h, ih]

theorem nearestVal_eq_none (fs : List (List (String × Value))) (lex : String) :
    nearestVal fs lex = Option.none ↔ ∀ f ∈ fs, hasKey f lex = false := by
  induction fs with
  | nil => simp [nearestVal]
  | cons f rest ih =>
    cases h : lookupK f lex with
    | none =>
      simp only [nearestVal, h, List.mem_cons]
      constructor
      · intro hrest g hg
        rcases hg with hg | hg
        · subst hg; simp [hasKey, h]
        · exact ih.mp hrest g hg
      · intro hall
        exact ih.mpr (fun g hg => hall g (Or.inr hg))
    | some v =>
      simp only [nearestVal, h, List.mem_cons]
      constructor
      · intro hc; exact absurd hc (by simp)
      · intro hall
        have := hall f (Or.inl rfl)
        simp [hasKey, h] at this

theorem assign_spec : ∀ (env : Environment) (name : Token) (v : Value),
    (chainHas env name.lexeme = false →
       env.assign name v =
         Except.error ⟨name, "Undefined variable \x27" ++ name.lexeme ++ "\x27"⟩) ∧
    (chainHas env name.lexeme = true →
       ∃ env', env.assign name v = Except.ok env' ∧
         env'.frames = overwriteNearest env.frames name.lexeme v)
  | .mk vs Option.none, name, v => by
    by_cases h : hasKey vs name.lexeme <;>
      simp [Environment.assign, Environment.frames, chainHas, overwriteNearest, h]
  | .mk vs (Option.some e), name, v => by
    have ih := assign_spec e name v
    by_cases h : hasKey vs name.lexeme
    · simp [Environment.assign, Environment.frames, chainHas, overwriteNearest, h]
    · constructor
      · intro hc
        simp only [chainHas, Environment.frames, List.any_cons, Bool.or_eq_false_iff] at hc
        have he := ih.1 (by simpa [chainHas] using hc.2)
        simp [Environment.assign, h, he]
      · intro hc
        simp only [chainHas, Environment.frames, List.any_cons, h,
          Bool.false_or] at hc
        obtain ⟨e2, he2, hf⟩ := ih.2 (by simpa [chainHas] using hc)
        refine ⟨.mk vs (Option.some e2), ?_, ?_⟩
        · simp [Environment.assign, h, he2]
        · simp [Environment.frames, overwriteNearest, h, hf]

/-! ## Helper lemmas: the diagnostic sink only grows

Every resolver operation at most appends to the error sink, even when an
exception escapes.  This is proved by the same recursion as the resolver
itself. -/

theorem errExt_refl (st : ResolverState) : ErrExt st st := ⟨[], by simp⟩

theorem errExt_trans {a b c : ResolverState} (h1 : ErrExt a b) (h2 : ErrExt b c) :
    ErrExt a c := by
  obtain ⟨l1, e1⟩ := h1
  obtain ⟨l2, e2⟩ := h2
  exact ⟨l1 ++ l2, by simp [e2, e1]⟩

theorem errExt_addError (st : ResolverState) (tok : Token) (msg : String) :
    ErrExt st (addError st tok msg) := ⟨[(tok, msg)], rfl⟩

theorem errExt_errors_eq {a b : ResolverState} (h : b.errors = a.errors) :
    ErrExt a b := ⟨[], by simp [h]⟩

theorem errExt_declare (n : Token) (st : ResolverState) :
    ErrExt st (declare n st).1 := by
  rcases hs : st.scopes with _ | ⟨scope, rest⟩
  · exact errExt_errors_eq (by simp [declare, hs])
  · by_cases hk : hasKey scope n.lexeme
    · exact ⟨[(n, dupDeclMsg)], by simp [declare, hs, hk, addError]⟩
    · exact errExt_errors_eq (by simp [declare, hs, hk])

theorem errExt_define (n : Token) (st : ResolverState) :
    ErrExt st (define n st).1 := by
  rcases hs : st.scopes with _ | ⟨scope, rest⟩ <;>
    exact errExt_errors_eq (by simp [define, hs])

theorem errExt_resolveLocal (i : Nat) (n : Token) (st : ResolverState) :
    ErrExt st (resolveLocal i n st).1 := by
  rcases hf : findFrame st.scopes n.lexeme with _ | d
  · rcases hg : st.globals.get n with err | v
    · exact errExt_errors_eq (by simp [resolveLocal, hf, hg])
    · by_cases hv : v = Value.undefined
      · exact ⟨[(n, undefinedVarMsg)], by simp [resolveLocal, hf, hg, hv, addError]⟩
      · exact errExt_errors_eq (by simp [resolveLocal, hf, hg, hv])
  · exact errExt_errors_eq (by simp [resolveLocal, hf])

theorem errExt_declareParams : ∀ (ps : List Token) (st : ResolverState),
    ErrExt st (declareParams ps st).1
  | [], st => errExt_refl st
  | p :: rest, st => by
    have h1 := errExt_declare p st
    rcases hd : declare p st with ⟨st1, _ | ex⟩
    · rw [hd] at h1
      have h2 := errExt_define p st1
      rcases he : define p st1 with ⟨st2, _ | ex2⟩
      · rw [he] at h2
        simp only [declareParams, hd, he]
        exact errExt_trans (errExt_trans h1 h2) (errExt_declareParams rest st2)
      · rw [he] at h2
        simp only [declareParams, hd, he]
        exact errExt_trans h1 h2
    · rw [hd] at h1
      simp only [declareParams, hd]
      exact h1

mutual

theorem errExt_resolveExpr : ∀ (e : Expr) (st : ResolverState),
    ErrExt st (resolveExpr e st).1
  | .literal _, st => errExt_refl st
  | .grouping e, st => errExt_resolveExpr e st
  | .unary _ r, st => errExt_resolveExpr r st
  | .binary l _ r, st => by
    have h1 := errExt_resolveExpr l st
    rcases hl : resolveExpr l st with ⟨st1, _ | ex⟩
    · rw [hl] at h1
      simp only [resolveExpr, hl]
      exact errExt_trans h1 (errExt_resolveExpr r st1)
    · rw [hl] at h1
      simp only [resolveExpr, hl]
      exact h1
  | .logical l _ r, st => by
    have h1 := errExt_resolveExpr l st
    rcases hl : resolveExpr l st with ⟨st1, _ | ex⟩
    · rw [hl] at h1
      simp only [resolveExpr, hl]
      exact errExt_trans h1 (errExt_resolveExpr r st1)
    · rw [hl] at h1
      simp only [resolveExpr, hl]
      exact h1
  | .variableE i n, st => by
    by_cases hc : st.scopes ≠ [] ∧ lookupK (innerScope st) n.lexeme = Option.some false
    · simp only [resolveExpr, if_pos hc]
      exact errExt_trans (errExt_addError st n readInitMsg)
        (errExt_resolveLocal i n (addError st n readInitMsg))
    · simp only [resolveExpr, if_neg hc]
      exact errExt_resolveLocal i n st
  | .assignE i n v, st => by
    have h1 := errExt_resolveExpr v st
    rcases hv : resolveExpr v st with ⟨st1, _ | ex⟩
    · rw [hv] at h1
      simp only [resolveExpr, hv]
      exact errExt_trans h1 (errExt_resolveLocal i n st1)
    · rw [hv] at h1
      simp only [resolveExpr, hv]
      exact h1
  | .call c args, st => by
    have h1 := errExt_resolveExpr c st
    rcases hc : resolveExpr c st with ⟨st1, _ | ex⟩
    · rw [hc] at h1
      simp only [resolveExpr, hc]
      exact errExt_trans h1 (errExt_resolveExprs args st1)
    · rw [hc] at h1
      simp only [resolveExpr, hc]
      exact h1
  | .getE o _, st => errExt_resolveExpr o st
  | .setE o _ v, st => by
    have h1 := errExt_resolveExpr v st
    rcases hv : resolveExpr v st with ⟨st1, _ | ex⟩
    · rw [hv] at h1
      simp only [resolveExpr, hv]
      exact errExt_trans h1 (errExt_resolveExpr o st1)
    · rw [hv] at h1
      simp only [resolveExpr, hv]
      exact h1
  | .thisE i kw, st => by
    by_cases hc : st.currentClass = ClassEnvironment.noneC
    · simp only [resolveExpr, if_pos hc]
      exact errExt_addError st kw thisOutsideMsg
    · simp only [resolveExpr, if_neg hc]
      exact errExt_resolveLocal i kw st

theorem errExt_resolveExprs : ∀ (es : List Expr) (st : ResolverState),
    ErrExt st (resolveExprs es st).1
  | [], st => errExt_refl st
  | e :: rest, st => by
    have h1 := errExt_resolveExpr e st
    rcases he : resolveExpr e st with ⟨st1, _ | ex⟩
    · rw [he] at h1
      simp only [resolveExprs, he]
      exact errExt_trans h1 (errExt_resolveExprs rest st1)
    · rw [he] at h1
      simp only [resolveExprs, he]
      exact h1

end

mutual

theorem errExt_resolveStmt : ∀ (s : Stmt) (st : ResolverState),
    ErrExt st (resolveStmt s st).1
  | .expression e, st => errExt_resolveExpr e st
  | .print Option.none, st => errExt_refl st
  | .print (Option.some e), st => errExt_resolveExpr e st
  | .letS n Option.none, st => by
    have h1 := errExt_declare n st
    rcases hd : declare n st with ⟨st1, _ | ex⟩
    · rw [hd] at h1
      simp only [resolveStmt, hd]
      exact errExt_trans h1 (errExt_define n st1)
    · rw [hd] at h1
      simp only [resolveStmt, hd]
      exact h1
  | .letS n (Option.some e), st => by
    have h1 := errExt_declare n st
    rcases hd : declare n st with ⟨st1, _ | ex⟩
    · rw [hd] at h1
      have h2 := errExt_resolveExpr e st1
      rcases he : resolveExpr e st1 with ⟨st2, _ | ex2⟩
      · rw [he] at h2
        simp only [resolveStmt, hd, he]
        exact errExt_trans (errExt_trans h1 h2) (errExt_define n st2)
      · rw [he] at h2
        simp only [resolveStmt, hd, he]
        exact errExt_trans h1 h2
    · rw [hd] at h1
      simp only [resolveStmt, hd]
      exact h1
  | .block ss, st => by
    have h1 := errExt_resolveStmts ss (beginScope st)
    rcases hb : resolveStmts ss (beginScope st) with ⟨st1, _ | ex⟩
    · rw [hb] at h1
      simp only [resolveStmt, hb]
      exact errExt_trans (errExt_errors_eq rfl)
        (errExt_trans h1 (errExt_errors_eq (by simp [endScope])))
    · rw [hb] at h1
      simp only [resolveStmt, hb]
      exact errExt_trans (errExt_errors_eq rfl) h1
  | .ifS c t Option.none, st => by
    have h1 := errExt_resolveExpr c st
    rcases hc : resolveExpr c st with ⟨st1, _ | ex⟩
    · rw [hc] at h1
      simp only [resolveStmt, hc]
      exact errExt_trans h1 (errExt_resolveStmt t st1)
    · rw [hc] at h1
      simp only [resolveStmt, hc]
      exact h1
  | .ifS c t (Option.some el), st => by
    have h1 := errExt_resolveExpr c st
    rcases hc : resolveExpr c st with ⟨st1, _ | ex⟩
    · rw [hc] at h1
      have h2 := errExt_resolveStmt t st1
      rcases ht : resolveStmt t st1 with ⟨st2, _ | ex2⟩
      · rw [ht] at h2
        simp only [resolveStmt, hc, ht]
        exact errExt_trans (errExt_trans h1 h2) (errExt_resolveStmt el st2)
      · rw [ht] at h2
        simp only [resolveStmt, hc, ht]
        exact errExt_trans h1 h2
    · rw [hc] at h1
      simp only [resolveStmt, hc]
      exact h1
  | .whileS c b, st => by
    have h1 := errExt_resolveExpr c st
    rcases hc : resolveExpr c st with ⟨st1, _ | ex⟩
    · rw [hc] at h1
      simp only [resolveStmt, hc]
      exact errExt_trans h1 (errExt_resolveStmt b st1)
    · rw [hc] at h1
      simp only [resolveStmt, hc]
      exact h1
  | .functionS f, st => by
    have h1 := errExt_declare f.name st
    rcases hd : declare f.name st with ⟨st1, _ | ex⟩
    · rw [hd] at h1
      have h2 := errExt_define f.name st1
      rcases he : define f.name st1 with ⟨st2, _ | ex2⟩
      · rw [he] at h2
        simp only [resolveStmt, hd, he]
        exact errExt_trans (errExt_trans h1 h2)
          (errExt_resolveFunction f FunctionEnvironment.functionF st2)
      · rw [he] at h2
        simp only [resolveStmt, hd, he]
        exact errExt_trans h1 h2
    · rw [hd] at h1
      simp only [resolveStmt, hd]
      exact h1
  | .returnS kw Option.none, st => by
    by_cases hc : st.currentFunction = FunctionEnvironment.noneF
    · simp only [resolveStmt, if_pos hc]
      exact errExt_addError st kw returnTopMsg
    · simp only [resolveStmt, if_neg hc]
      exact errExt_refl st
  | .returnS kw (Option.some e), st => by
    by_cases hc : st.currentFunction = FunctionEnvironment.noneF
    · simp only [resolveStmt, if_pos hc]
      exact errExt_trans (errExt_addError st kw returnTopMsg)
        (errExt_resolveExpr e (addError st kw returnTopMsg))
    · simp only [resolveStmt, if_neg hc]
      exact errExt_resolveExpr e st
  | .classS n ms, st => by
    have h1 : ErrExt st (declare n { st with currentClass := ClassEnvironment.classC }).1 :=
      errExt_trans (errExt_errors_eq rfl)
        (errExt_declare n { st with currentClass := ClassEnvironment.classC })
    rcases hd : declare n { st with currentClass := ClassEnvironment.classC }
      with ⟨st1, _ | ex⟩
    · rw [hd] at h1
      have h2 := errExt_define n st1
      rcases he : define n st1 with ⟨st2, _ | ex2⟩
      · rw [he] at h2
        have h3 : ErrExt st2
            (resolveMethods ms { st2 with scopes := [("this", true)] :: st2.scopes }).1 :=
          errExt_trans (errExt_errors_eq rfl)
            (errExt_resolveMethods ms { st2 with scopes := [("this", true)] :: st2.scopes })
        rcases hm : resolveMethods ms { st2 with scopes := [("this", true)] :: st2.scopes }
          with ⟨st3, _ | ex3⟩
        · rw [hm] at h3
          simp only [resolveStmt, hd, he, hm]
          exact errExt_trans (errExt_trans h1 h2)
            (errExt_trans h3 (errExt_errors_eq (by simp [endScope])))
        · rw [hm] at h3
          simp only [resolveStmt, hd, he, hm]
          exact errExt_trans (errExt_trans h1 h2) h3
      · rw [he] at h2
        simp only [resolveStmt, hd, he]
        exact errExt_trans h1 h2
    · rw [hd] at h1
      simp only [resolveStmt, hd]
      exact h1

theorem errExt_resolveStmts : ∀ (ss : List Stmt) (st : ResolverState),
    ErrExt st (resolveStmts ss st).1
  | [], st => errExt_refl st
  | s :: rest, st => by
    have h1 := errExt_resolveStmt s st
    rcases hs : resolveStmt s st with ⟨st1, _ | ex⟩
    · rw [hs] at h1
      simp only [resolveStmts, hs]
      exact errExt_trans h1 (errExt_resolveStmts rest st1)
    · rw [hs] at h1
      simp only [resolveStmts, hs]
      exact h1

theorem errExt_resolveMethods : ∀ (ms : List FunctionStmt) (st : ResolverState),
    ErrExt st (resolveMethods ms st).1
  | [], st => errExt_refl st
  | m :: rest, st => by
    have h1 := errExt_resolveFunction m FunctionEnvironment.methodF st
    rcases hm : resolveFunction m FunctionEnvironment.methodF st with ⟨st1, _ | ex⟩
    · rw [hm] at h1
      simp only [resolveMethods, hm]
      exact errExt_trans h1 (errExt_resolveMethods rest st1)
    · rw [hm] at h1
      simp only [resolveMethods, hm]
      exact h1

theorem errExt_resolveFunction : ∀ (f : FunctionStmt) (ty : FunctionEnvironment)
    (st : ResolverState), ErrExt st (resolveFunction f ty st).1
  | .mk nm ps body, ty, st => by
    have h1 : ErrExt st
        (declareParams ps (beginScope { st with currentFunction := ty })).1 :=
      errExt_trans (errExt_errors_eq rfl)
        (errExt_declareParams ps (beginScope { st with currentFunction := ty }))
    rcases hp : declareParams ps (beginScope { st with currentFunction := ty })
      with ⟨st1, _ | ex⟩
    · rw [hp] at h1
      have h2 := errExt_resolveStmts body st1
      rcases hb : resolveStmts body st1 with ⟨st2, _ | ex2⟩
      · rw [hb] at h2
        simp only [resolveFunction, hp, hb]
        exact errExt_trans h1 (errExt_trans h2 (errExt_errors_eq (by simp [endScope])))
      · rw [hb] at h2
        simp only [resolveFunction, hp, hb]
        exact errExt_trans h1 h2
    · rw [hp] at h1
      simp only [resolveFunction, hp]
      exact h1

end

theorem errExt_mem {a b : ResolverState} (h : ErrExt a b) {x : Token × String}
    (hx : x ∈ a.errors) : x ∈ b.errors := by
  obtain ⟨l, hl⟩ := h
  rw [hl]
  exact List.mem_append_left l hx

/-- Declaring the parameters one by one emits a duplicate-declaration error
as soon as a parameter's name is already in the function's scope frame —
whether it was there at the start or was added by an earlier parameter. -/
theorem declareParams_dup : ∀ (ps : List Token) (st : ResolverState)
    (scope : List (String × Bool)) (rest : List (List (String × Bool))),
    st.scopes = scope :: rest →
    ((∃ p ∈ ps, hasKey scope p.lexeme = true) ∨ hasDupName ps = true) →
    ∃ tk, (tk, dupDeclMsg) ∈ ((declareParams ps st).1).errors
  | [], st, scope, rest, hs, hyp => by
    rcases hyp with ⟨p, hp, _⟩ | hd
    · exact absurd hp (List.not_mem_nil p)
    · simp [hasDupName] at hd
  | p :: ps', st, scope, rest, hs, hyp => by
    by_cases hk : hasKey scope p.lexeme
    · -- the duplicate error is emitted right now and survives the rest
      refine ⟨p, ?_⟩
      simp only [declareParams, declare, hs, hk, if_pos, addError, define,
        ite_true]
      refine errExt_mem (errExt_declareParams ps' _) ?_
      simp
    · -- no error yet: push the obligation into the recursive call
      have hrec := declareParams_dup ps'
        { st with
            errors := st.errors,
            scopes := setKey (setKey scope p.lexeme false) p.lexeme true :: rest }
        (setKey (setKey scope p.lexeme false) p.lexeme true) rest rfl ?side
      · obtain ⟨tk, htk⟩ := hrec
        refine ⟨tk, ?_⟩
        simpa only [declareParams, declare, hs, hk, Bool.false_eq_true,
          ite_false, define, setKey] using htk
      · -- transform the hypothesis for the enlarged scope frame
        rcases hyp with ⟨q, hq, hqk⟩ | hd
        · rcases List.mem_cons.mp hq with rfl | hq'
          · exact absurd hqk (by simp [hk])
          · exact Or.inl ⟨q, hq', by simp [hasKey_setKey, hqk]⟩
        · simp only [hasDupName, Bool.or_eq_true, List.any_eq_true] at hd
          rcases hd with ⟨q, hq', hql⟩ | hd'
          · refine Or.inl ⟨q, hq', ?_⟩
            have : p.lexeme = q.lexeme := (beq_iff_eq.mp hql).symm
            simp [hasKey_setKey, this]
          · exact Or.inr hd'

/-- C9: resolving a function or method whose parameter list contains the same
name twice emits the static duplicate-declaration error: each parameter is
declared into the function's fresh scope frame, and declaring a name already
present in that exact frame is the duplicate-declaration error (which then
survives the resolution of the body). -/
theorem c9_duplicate_params_error (st : ResolverState) (f : FunctionStmt)
    (ty : FunctionEnvironment) (h : hasDupName f.params = true) :
    ∃ tk, (tk, dupDeclMsg) ∈ ((resolveFunction f ty st).1).errors := by
  obtain ⟨nm, ps, body⟩ := f
  simp only [FunctionStmt.params] at h
  obtain ⟨tk, htk⟩ := declareParams_dup ps
    (beginScope { st with currentFunction := ty }) [] st.scopes rfl (Or.inr h)
  rcases hp : declareParams ps (beginScope { st with currentFunction := ty })
    with ⟨st1, _ | ex⟩
  · rw [hp] at htk
    rcases hb : resolveStmts body st1 with ⟨st2, _ | ex2⟩
    · have h2 := errExt_resolveStmts body st1
      rw [hb] at h2
      refine ⟨tk, ?_⟩
      simp only [resolveFunction, hp, hb]
      have : (tk, dupDeclMsg) ∈ st2.errors := errExt_mem h2 htk
      simpa [endScope] using this
    · have h2 := errExt_resolveStmts body st1
      rw [hb] at h2
      refine ⟨tk, ?_⟩
      simp only [resolveFunction, hp, hb]
      exact errExt_mem h2 htk
  · rw [hp] at htk
    refine ⟨tk, ?_⟩
    simp only [resolveFunction, hp]
    exact htk

/-- Witness for C9: the declaration `fn f(a, a) {}` has a duplicated
parameter name, and resolving it emits the duplicate-declaration error. -/
theorem c9_witness :
    hasDupName fDupParams.params = true ∧
    ∃ tk, (tk, dupDeclMsg)
      ∈ ((resolveFunction fDupParams FunctionEnvironment.functionF
            (initState E0)).1).errors :=
  ⟨by decide,
   c9_duplicate_params_error (initState E0) fDupParams
     FunctionEnvironment.functionF (by decide)⟩

/-- C6: a Return statement emits the static error exactly when the current
function-context marker is `none` (and otherwise resolves its value in the
unchanged state); a This expression emits the static error exactly when the
current class-context marker is `none` (and otherwise resolves as a local
reference); and both markers are saved and restored around nested
declarations: a completed `resolveFunction` leaves `currentFunction` as it
found it, and a completed class statement leaves `currentClass` as it found
it. -/
theorem c6_return_this_context (st : ResolverState) (kw : Token) (i : Nat) :
    (resolveStmt (.returnS kw Option.none) st
       = ((if st.currentFunction = FunctionEnvironment.noneF
           then addError st kw returnTopMsg else st), Option.none)) ∧
    (∀ e : Expr, resolveStmt (.returnS kw (Option.some e)) st
       = resolveExpr e
           (if st.currentFunction = FunctionEnvironment.noneF
            then addError st kw returnTopMsg else st)) ∧
    (resolveExpr (.thisE i kw) st
       = (if st.currentClass = ClassEnvironment.noneC
          then (addError st kw thisOutsideMsg, Option.none)
          else resolveLocal i kw st)) ∧
    (∀ (f : FunctionStmt) (ty : FunctionEnvironment) (st2 : ResolverState),
       resolveFunction f ty st = (st2, Option.none) →
         st2.currentFunction = st.currentFunction) ∧
    (∀ (n : Token) (ms : List FunctionStmt) (st2 : ResolverState),
       resolveStmt (.classS n ms) st = (st2, Option.none) →
         st2.currentClass = st.currentClass) := by
  refine ⟨rfl, fun e => rfl, rfl, ?_, ?_⟩
  · intro f ty st2 h
    obtain ⟨nm, ps, body⟩ := f
    rcases hp : declareParams ps (beginScope { st with currentFunction := ty })
      with ⟨st1, _ | ex⟩
    · rcases hb : resolveStmts body st1 with ⟨stb, _ | ex2⟩
      · simp only [resolveFunction, hp, hb] at h
        injection h with h1 h2
        rw [← h1]
      · simp only [resolveFunction, hp, hb] at h
        exact absurd h (by simp)
    · simp only [resolveFunction, hp] at h
      exact absurd h (by simp)
  · intro n ms st2 h
    rcases hd : declare n { st with currentClass := ClassEnvironment.classC }
      with ⟨st1, _ | ex⟩
    · rcases he : define n st1 with ⟨std, _ | ex2⟩
      · rcases hm : resolveMethods ms { std with scopes := [("this", true)] :: std.scopes }
          with ⟨stm, _ | ex3⟩
        · simp only [resolveStmt, hd, he, hm] at h
          injection h with h1 h2
          rw [← h1]
        · simp only [resolveStmt, hd, he, hm] at h
          exact absurd h (by simp)
      · simp only [resolveStmt, hd, he] at h
        exact absurd h (by simp)
    · simp only [resolveStmt, hd] at h
      exact absurd h (by simp)

/-- Witness for C6: resolving an empty function declaration and an empty
class statement from the initial state completes and leaves both context
markers at `none`. -/
theorem c6_witness :
    ((resolveFunction fEmpty FunctionEnvironment.functionF (initState E0)).1).currentFunction
        = FunctionEnvironment.noneF ∧
    ((resolveStmt (.classS ⟨"C", 1⟩ []) (initState E0)).1).currentClass
        = ClassEnvironment.noneC := by
  constructor
  · exact (c6_return_this_context (initState E0) tokA 0).2.2.2.1 fEmpty
      FunctionEnvironment.functionF
      ((resolveFunction fEmpty FunctionEnvironment.functionF (initState E0)).1) rfl
  · exact (c6_return_this_context (initState E0) tokA 0).2.2.2.2 ⟨"C", 1⟩ []
      ((resolveStmt (.classS ⟨"C", 1⟩ []) (initState E0)).1) rfl

/-! ## The claims -/

/-- C1: for a variable-reference or assignment expression whose name occurs in
at least one frame of the resolver's scope stack, `resolveLocal` records
exactly one binding-distance entry for that expression node — the bindings
table is extended by the single pair `(node, i)` — where `i` is the number of
frames walked outward from the innermost scope to the nearest frame
containing the name: frame `i` contains it and every strictly nearer frame
does not.  No error is emitted and no exception escapes. -/
theorem c1_resolveLocal_records_nearest_distance
    (st : ResolverState) (exprId : Nat) (name : Token)
    (h : ∃ f ∈ st.scopes, hasKey f name.lexeme = true) :
    ∃ i, resolveLocal exprId name st
        = ({ st with bindings := st.bindings ++ [(exprId, i)] }, Option.none) ∧
      (∃ f, st.scopes.get? i = Option.some f ∧ hasKey f name.lexeme = true) ∧
      (∀ j, j < i → ∀ f, st.scopes.get? j = Option.some f →
         hasKey f name.lexeme = false) := by
  have hn : findFrame st.scopes name.lexeme ≠ Option.none := by
    rw [Ne, findFrame_eq_none]
    push_neg
    obtain ⟨f, hf, hk⟩ := h
    exact ⟨f, hf, by simp [hk]⟩
  obtain ⟨i, hi⟩ := Option.ne_none_iff_exists'.mp hn
  exact ⟨i, by simp [resolveLocal, hi], findFrame_spec _ _ _ hi⟩

/-- Witness for C1: in `stDemo` the name `a` is bound only in the outer
frame, so the recorded distance is 1. -/
theorem c1_witness :
    ∃ i, resolveLocal 7 tokA stDemo
        = ({ stDemo with bindings := stDemo.bindings ++ [(7, i)] }, Option.none) ∧
      (∃ f, stDemo.scopes.get? i = Option.some f ∧ hasKey f tokA.lexeme = true) ∧
      (∀ j, j < i → ∀ f, stDemo.scopes.get? j = Option.some f →
         hasKey f tokA.lexeme = false) :=
  c1_resolveLocal_records_nearest_distance stDemo 7 tokA
    ⟨[("a", true)], by simp [stDemo], by decide⟩

/-- C7: `Environment.get` returns the value bound in the nearest frame of the
chain (walking outward from the receiver) containing the name, and throws the
`RuntimeError` naming the variable exactly when no frame of the chain binds
it. -/
theorem c7_get_nearest_frame (env : Environment) (name : Token) :
    (env.get name =
      (match nearestVal env.frames name.lexeme with
       | Option.some v => Except.ok v
       | Option.none =>
           Except.error ⟨name, "Undefined variable \x27" ++ name.lexeme ++ "\x27"⟩)) ∧
    (nearestVal env.frames name.lexeme = Option.none ↔
       ∀ f ∈ env.frames, hasKey f name.lexeme = false) :=
  ⟨get_eq_nearestVal env name, nearestVal_eq_none env.frames name.lexeme⟩

/-- Witness for C7: in the chain `E2` the name `a` is found in the enclosing
frame, and the never-bound name `x` raises the undefined-variable error. -/
theorem c7_witness :
    Environment.get E2 tokA = Except.ok (Value.num 1) ∧
    Environment.get E2 tokX
      = Except.error ⟨tokX, "Undefined variable \x27x\x27"⟩ :=
  ⟨(c7_get_nearest_frame E2 tokA).1.trans (by rfl),
   (c7_get_nearest_frame E2 tokX).1.trans (by rfl)⟩

/-- C8: `Environment.assign` overwrites the binding in the nearest frame
(walking outward) that already binds the name — every other frame unchanged —
and throws the undefined-variable `RuntimeError` exactly when no frame of the
chain binds it; in that case no environment is produced and, the receiver
being reached with every frame unmodified, assignment never creates a
binding. -/
theorem c8_assign_nearest_or_error (env : Environment) (name : Token) (v : Value) :
    (chainHas env name.lexeme = false →
       env.assign name v =
         Except.error ⟨name, "Undefined variable \x27" ++ name.lexeme ++ "\x27"⟩) ∧
    (chainHas env name.lexeme = true →
       ∃ env', env.assign name v = Except.ok env' ∧
         env'.frames = overwriteNearest env.frames name.lexeme v) :=
  assign_spec env name v

/-- Witness for C8: assigning `a` in the chain `E2` overwrites the enclosing
frame; assigning the never-bound `x` throws. -/
theorem c8_witness :
    (∃ env', Environment.assign E2 tokA (Value.num 9) = Except.ok env' ∧
       env'.frames = overwriteNearest E2.frames "a" (Value.num 9)) ∧
    Environment.assign E2 tokX (Value.num 9)
      = Except.error ⟨tokX, "Undefined variable \x27x\x27"⟩ :=
  ⟨(c8_assign_nearest_or_error E2 tokA (Value.num 9)).2 (by decide),
   (c8_assign_nearest_or_error E2 tokX (Value.num 9)).1 (by decide)⟩

/-- C2 (failing input): resolving the top-level program `x;`, where `x` is
declared nowhere and the global environment is empty, lets the
`RuntimeError` thrown by `Environment.get` escape the resolver: the pass
aborts with a runtime exception and no static `Undefined variable` error is
reported to the diagnostic sink — contrary to the claim (and to the visible
intent of the `=== undefined` comparison in `resolveLocal`). -/
theorem c2_runtime_error_escapes_resolver :
    (runResolver E0 [.expression (.variableE 0 tokX)]).2
      = Option.some (.runtime ⟨tokX, "Undefined variable \x27x\x27"⟩) ∧
    (runResolver E0 [.expression (.variableE 0 tokX)]).1.errors = [] :=
  ⟨rfl, rfl⟩

/-- C3 (counterexample): for `let a = a;` at the top level the resolver DOES
emit the `Cannot read local variable in its own initializer` static error,
refuting the claim that the reference falls through to the global
forward-reference policy. -/
theorem c3_counterexample :
    (tokA, readInitMsg)
      ∈ (runResolver E0 [.letS tokA (Option.some (.variableE 0 tokA))]).1.errors := by
  decide

/-- C3 (amended): `let a = a;` at the top level emits the
`Cannot read local variable in its own initializer` static error, exactly as
inside a block: the global scope frame pushed by the resolver's constructor
is subject to the same same-scope readiness check as any block frame.  The
reference still resolves (distance 0 into the global frame) and no exception
escapes. -/
theorem c3_top_level_self_init_errors (n : Token) (id : Nat) (g : Environment) :
    runResolver g [.letS n (Option.some (.variableE id n))]
      = ({ scopes := [[(n.lexeme, true)]],
           currentFunction := .noneF,
           currentClass := .noneC,
           bindings := [(id, 0)],
           errors := [(n, readInitMsg)],
           globals := g }, Option.none) := by
  simp [runResolver, resolveStmts, resolveStmt, resolveExpr, declare, define,
    resolveLocal, initState, addError, innerScope, lookupK, hasKey, setKey,
    findFrame]

/-- C4: a Let statement inside a block whose initializer reads the name being
declared emits the `Cannot read local variable in its own initializer`
static error: the Let declares the name unready, and the reference finds the
same-innermost-scope entry still marked `false`.  Resolution continues (the
reference is also recorded at distance 0) and the block leaves every other
component of the state unchanged. -/
theorem c4_block_self_init_errors (st : ResolverState) (n : Token) (id : Nat) :
    resolveStmt (.block [.letS n (Option.some (.variableE id n))]) st
      = ({ st with
            errors := st.errors ++ [(n, readInitMsg)],
            bindings := st.bindings ++ [(id, 0)] }, Option.none) := by
  simp [resolveStmt, resolveStmts, resolveExpr, declare, define, resolveLocal,
    beginScope, endScope, addError, innerScope, lookupK, hasKey, setKey,
    findFrame]

/-- C5: `declare` on a name already present in the exact innermost scope
frame emits the static duplicate-declaration error and continues, re-marking
the name unready; on a name absent from the innermost frame (even one bound
in an enclosing frame) it emits no error.  Consequently redeclaring a name in
a nested block — here `{ let a; { let a; } }` for any name — produces no
diagnostic at all. -/
theorem c5_duplicate_declaration (st : ResolverState) (n : Token) (g : Environment)
    (h : st.scopes ≠ []) :
    (hasKey (innerScope st) n.lexeme = true →
       declare n st
         = ({ st with
              errors := st.errors ++ [(n, dupDeclMsg)],
              scopes := setKey (innerScope st) n.lexeme false :: st.scopes.tail },
            Option.none)) ∧
    (hasKey (innerScope st) n.lexeme = false →
       declare n st
         = ({ st with
              scopes := setKey (innerScope st) n.lexeme false :: st.scopes.tail },
            Option.none)) ∧
    ((runResolver g [.block [.letS n Option.none, .block [.letS n Option.none]]]).1.errors
        = [] ∧
     (runResolver g [.block [.letS n Option.none, .block [.letS n Option.none]]]).2
        = Option.none) := by
  rcases hs : st.scopes with _ | ⟨scope, rest⟩
  · exact absurd hs h
  · refine ⟨?_, ?_, ?_⟩
    · intro hk
      simp only [innerScope, hs, List.headD_cons] at hk
      simp [declare, hs, innerScope, addError, hk]
    · intro hk
      simp only [innerScope, hs, List.headD_cons] at hk
      simp [declare, hs, innerScope, addError, hk]
    · constructor <;>
        simp [runResolver, resolveStmts, resolveStmt, declare, define,
          initState, beginScope, endScope, addError, innerScope, lookupK,
          hasKey, setKey]

/-- Witness for C5: redeclaring `a` when the innermost frame binds it emits
the duplicate-declaration error; declaring `a` in `stDemo`, where only the
outer frame binds it (shadowing), emits nothing. -/
theorem c5_witness :
    (declare tokA stInnerA
       = ({ stInnerA with
            errors := stInnerA.errors ++ [(tokA, dupDeclMsg)],
            scopes := setKey (innerScope stInnerA) tokA.lexeme false
                        :: stInnerA.scopes.tail },
          Option.none)) ∧
    (declare tokA stDemo
       = ({ stDemo with
            scopes := setKey (innerScope stDemo) tokA.lexeme false
                        :: stDemo.scopes.tail },
          Option.none)) :=
  ⟨(c5_duplicate_declaration stInnerA tokA E0 (by decide)).1 (by decide),
   (c5_duplicate_declaration stDemo tokA E0 (by decide)).2.1 (by decide)⟩

/-- C10: the duplicate-declaration check applies to the top-level (global)
scope frame created at construction and never popped: two top-level `let`
declarations of one name in separate statements emit the static
duplicate-declaration error (and the pass completes without exception), and
likewise a top-level `let` followed by a top-level function declaration of
the same name. -/
theorem c10_top_level_duplicate (n : Token) (g : Environment) :
    ((runResolver g [.letS n Option.none, .letS n Option.none]).2 = Option.none ∧
     (n, dupDeclMsg)
       ∈ (runResolver g [.letS n Option.none, .letS n Option.none]).1.errors) ∧
    (n, dupDeclMsg)
      ∈ (runResolver g [.letS n Option.none, .functionS (.mk n [] [])]).1.errors := by
  refine ⟨⟨?_, ?_⟩, ?_⟩ <;>
    simp [runResolver, resolveStmts, resolveStmt, resolveFunction, declareParams,
      declare, define, initState, beginScope, endScope, addError, innerScope,
      lookupK, hasKey, setKey, FunctionStmt.name, FunctionStmt.params,
      FunctionStmt.body]

end TLox
